import Mathlib

/-!
Verification of the technical-indicator / signal-extraction core of the
us-stock-bot repository (`src/strategies/indicators.py`).

The pandas `DataFrame` held by `TechnicalAnalyzer` is embedded as a list of
base price rows (`PriceRow`) together with an association list of derived
columns, each column a list of per-row values aligned positionally with the
rows.  Float cells are modelled as exact values; a pandas `NaN` cell is
modelled as `none`, so derived columns carry `Option` values.  Per-series
rolling computations (`rolling(window).mean()`, the RSI pipeline, rolling
sample variance) are embedded as functions over `List ℚ` — exact-real
semantics of the float arithmetic.  The Bollinger standard deviation takes a
real square root, so the band columns live in `Option ℝ` and the ℚ-valued
rolling results are cast into ℝ when stored in a column.
-/

/-- One row of the price table: one trading day for one ticker.
Mirrors the `[date, ticker, open, high, low, close, volume]` columns of the
input DataFrame (`open` is a Lean keyword, hence `openPrice`). -/
structure PriceRow where
  ticker : String
  date : Int
  openPrice : ℚ
  high : ℚ
  low : ℚ
  close : ℚ
  volume : Nat
deriving DecidableEq

instance : Inhabited PriceRow := ⟨⟨"", 0, 0, 0, 0, 0, 0⟩⟩

/-- The DataFrame state of a `TechnicalAnalyzer`: the base rows plus the
derived (indicator) columns, keyed by column name.  Each column is stored as
a list of per-row cells; a `NaN` cell is `none`. -/
structure DF where
  rows : List PriceRow
  cols : List (String × List (Option ℝ))
deriving Inhabited

/-- Lookup of a derived column by name (first match, as column names are
unique in any DataFrame). -/
def getColList : List (String × List (Option ℝ)) → String → Option (List (Option ℝ))
  | [], _ => none
  | c :: rest, n => if c.1 = n then some c.2 else getColList rest n

def getCol (df : DF) (n : String) : Option (List (Option ℝ)) :=
  getColList df.cols n

/-- The values of column `n`, or `[]` if the column is absent. -/
def getColD (df : DF) (n : String) : List (Option ℝ) :=
  (getCol df n).getD []

/-- The cell of column `n` at row index `i` (`none` when out of range or
when the stored cell is `NaN`). -/
def getCell (df : DF) (n : String) (i : Nat) : Option ℝ :=
  (getColD df n).getD i none

/-- `col in df.columns` of pandas. -/
def hasColList : List (String × List (Option ℝ)) → String → Bool
  | [], _ => false
  | c :: rest, n => c.1 = n || hasColList rest n

def hasCol (df : DF) (n : String) : Bool :=
  hasColList df.cols n

/-- `df[n] = vs` of pandas: overwrite the column in place if it exists
(idempotent by name), append it otherwise. -/
def setColList : List (String × List (Option ℝ)) → String → List (Option ℝ) →
    List (String × List (Option ℝ))
  | [], n, vs => [(n, vs)]
  | c :: rest, n, vs => if c.1 = n then (n, vs) :: rest else c :: setColList rest n vs

def setCol (df : DF) (n : String) (vs : List (Option ℝ)) : DF :=
  ⟨df.rows, setColList df.cols n vs⟩

/-- The close prices of ticker `t`, in table order: the per-group series
that `groupby('ticker')['close']` hands to each transform. -/
def seriesOf (rows : List PriceRow) (t : String) : List ℚ :=
  (rows.filter (fun r => r.ticker = t)).map (fun r => r.close)

/-- The position of flat row `i` inside its ticker's group: the number of
earlier rows carrying ticker `t`. -/
def countTicker (rows : List PriceRow) (i : Nat) (t : String) : Nat :=
  ((rows.take i).filter (fun r => r.ticker = t)).length

/-- `groupby('ticker')['close'].transform f`: the result column, aligned
with `rows`; row `i`'s value is `f` applied to `i`'s group series at `i`'s
position within the group. -/
def transformClose (f : List ℚ → Nat → Option ℝ) (rows : List PriceRow) :
    List (Option ℝ) :=
  (List.range rows.length).map (fun i =>
    match rows[i]? with
    | some r => f (seriesOf rows r.ticker) (countTicker rows i r.ticker)
    | none => none)

/-- The trailing window `[i-w+1, i]` of a series. -/
def windowSlice (xs : List ℚ) (w i : Nat) : List ℚ :=
  (xs.drop (i + 1 - w)).take w

/-- `Series.rolling(window=w).mean()` at position `i`: `NaN` (here `none`)
until `w` observations are available, the arithmetic window mean after. -/
def rollingMean (xs : List ℚ) (w i : Nat) : Option ℚ :=
  if w = 0 ∨ i + 1 < w ∨ xs.length ≤ i then none
  else some ((windowSlice xs w i).sum / (w : ℚ))

/-- The `(delta.where(delta > 0, 0))` series of `add_rsi`, positionally:
element `i` is `x[i] - x[i-1]` when positive, else `0` (the leading `NaN`
difference also compares as not-greater, hence becomes `0`). -/
def gainsAux : ℚ → List ℚ → List ℚ
  | _, [] => []
  | prev, x :: rest => (if prev < x then x - prev else 0) :: gainsAux x rest

def gains : List ℚ → List ℚ
  | [] => []
  | x :: rest => 0 :: gainsAux x rest

/-- The `(-delta.where(delta < 0, 0))` series of `add_rsi`. -/
def lossesAux : ℚ → List ℚ → List ℚ
  | _, [] => []
  | prev, x :: rest => (if x < prev then prev - x else 0) :: lossesAux x rest

def losses : List ℚ → List ℚ
  | [] => []
  | x :: rest => 0 :: lossesAux x rest

/-- `calculate_rsi_series` at position `i` of a close series.  The float
pipeline computes `rs = avg_gain / avg_loss`, replaces an infinite `rs`
(zero loss, positive gain) with `0`, and then `100 - 100/(1+rs)`; a `0/0`
ratio stays `NaN` and yields a `NaN` RSI, modelled as `none`. -/
def rsiAt (xs : List ℚ) (w i : Nat) : Option ℚ :=
  match rollingMean (gains xs) w i, rollingMean (losses xs) w i with
  | some g, some l =>
      if l = 0 then (if g = 0 then none else some 0)
      else some (100 - 100 / (1 + g / l))
  | _, _ => none

/-- `Series.rolling(window=w).std()` squared, at position `i`: sample
variance (`ddof = 1`) over the trailing window; `NaN` until the window is
full and for `w ≤ 1` (zero denominator). -/
def rollingVar (xs : List ℚ) (w i : Nat) : Option ℚ :=
  if w ≤ 1 ∨ i + 1 < w ∨ xs.length ≤ i then none
  else
    some ((((windowSlice xs w i).map
      (fun x => (x - (windowSlice xs w i).sum / (w : ℚ)) ^ 2)).sum) / ((w : ℚ) - 1))

/-- `Series.rolling(window=w).std()` at position `i`. -/
noncomputable def rollingStd (xs : List ℚ) (w i : Nat) : Option ℝ :=
  (rollingVar xs w i).map (fun v => Real.sqrt ((v : ℚ) : ℝ))

/-- Cast a ℚ-valued per-series computation into the ℝ-valued cells of a
stored column. -/
def liftQ (f : List ℚ → Nat → Option ℚ) : List ℚ → Nat → Option ℝ :=
  fun xs i => (f xs i).map (fun q => ((q : ℚ) : ℝ))

/-- Elementwise arithmetic between two aligned columns, `NaN`-propagating,
as pandas does for `colA + colB` and friends. -/
def zipOpt (f : ℝ → ℝ → ℝ) (as bs : List (Option ℝ)) : List (Option ℝ) :=
  List.zipWith (fun a b =>
    match a, b with
    | some x, some y => some (f x y)
    | _, _ => none) as bs

/-- Column name `f'sma_{window}'`. -/
def smaName (w : Nat) : String := "sma_" ++ toString w

/-- Column name `f'rsi_{window}'`. -/
def rsiName (w : Nat) : String := "rsi_" ++ toString w

/-- The column produced by the rolling-mean group transform
(`lambda x: x.rolling(window=window).mean()`), used for both `sma_{w}` and
`bb_mid`. -/
def rollingMeanVals (rows : List PriceRow) (w : Nat) : List (Option ℝ) :=
  transformClose (liftQ (fun xs i => rollingMean xs w i)) rows

/-- The column produced by the `calculate_rsi_series` group transform. -/
def rsiVals (rows : List PriceRow) (w : Nat) : List (Option ℝ) :=
  transformClose (liftQ (fun xs i => rsiAt xs w i)) rows

/-- The `std_dev` column of `add_bollinger_bands`
(`lambda x: x.rolling(window=window).std()`). -/
noncomputable def bollStdVals (rows : List PriceRow) (w : Nat) : List (Option ℝ) :=
  transformClose (fun xs i => rollingStd xs w i) rows

/-- `TechnicalAnalyzer.add_sma`. -/
def add_sma (w : Nat) (df : DF) : DF :=
  setCol df (smaName w) (rollingMeanVals df.rows w)

/-- `TechnicalAnalyzer.add_rsi`. -/
def add_rsi (w : Nat) (df : DF) : DF :=
  setCol df (rsiName w) (rsiVals df.rows w)

/-- `TechnicalAnalyzer.add_bollinger_bands`: sets `bb_mid` (the rolling
mean), computes the rolling standard deviation, then sets
`bb_upper = bb_mid + std_dev * num_std` and
`bb_lower = bb_mid - std_dev * num_std`, reading back the `bb_mid` column
it just stored, exactly as the source does. -/
noncomputable def add_bollinger_bands (w : Nat) (num_std : Int) (df : DF) : DF :=
  let df1 := setCol df "bb_mid" (rollingMeanVals df.rows w)
  let std_dev := bollStdVals df1.rows w
  let df2 := setCol df1 "bb_upper"
    (zipOpt (fun m s => m + s * (num_std : ℝ)) (getColD df1 "bb_mid") std_dev)
  setCol df2 "bb_lower"
    (zipOpt (fun m s => m - s * (num_std : ℝ)) (getColD df2 "bb_mid") std_dev)

/-- The `bb_upper` column as a function of the base rows alone. -/
noncomputable def bollUpperVals (rows : List PriceRow) (w : Nat) (n : Int) :
    List (Option ℝ) :=
  zipOpt (fun m s => m + s * (n : ℝ)) (rollingMeanVals rows w) (bollStdVals rows w)

/-- The `bb_lower` column as a function of the base rows alone. -/
noncomputable def bollLowerVals (rows : List PriceRow) (w : Nat) (n : Int) :
    List (Option ℝ) :=
  zipOpt (fun m s => m - s * (n : ℝ)) (rollingMeanVals rows w) (bollStdVals rows w)

/-- The lexicographic key of `sort_values(by=['ticker', 'date'])`. -/
def lexLE (a b : PriceRow) : Prop :=
  a.ticker < b.ticker ∨ (a.ticker = b.ticker ∧ a.date ≤ b.date)

instance : DecidableRel lexLE := fun a b =>
  decidable_of_iff
    (a.ticker.toList < b.ticker.toList ∨ (a.ticker = b.ticker ∧ a.date ≤ b.date))
    (or_congr String.lt_iff_toList_lt.symm Iff.rfl)

/-- `sort_values(by=['ticker', 'date'])` on a plain row list (a stable sort
by the lexicographic (ticker, date) key). -/
def sortRows (rows : List PriceRow) : List PriceRow :=
  List.insertionSort lexLE rows

/-- `TechnicalAnalyzer.__init__` on a raw row sequence: reject an empty
input (`ValueError("Input DataFrame is empty.")` — the spec's
`EmptyInputError`), otherwise sort by (ticker, date). -/
def TechnicalAnalyzer.init (rows : List PriceRow) : Except String DF :=
  if rows = [] then Except.error "Input DataFrame is empty."
  else Except.ok ⟨sortRows rows, []⟩

/-- The boolean mask `self.df[rsi_col] < rsi_threshold` over a column's
cells: a `NaN` cell compares as `False`. -/
noncomputable def maskOf (vs : List (Option ℝ)) (t : Int) : List Bool :=
  vs.map (fun v =>
    match v with
    | some x => decide (x < (t : ℝ))
    | none => false)

/-- Keep the elements whose mask bit is `true` (positional boolean
indexing). -/
def maskFilter {α : Type} (mask : List Bool) (xs : List α) : List α :=
  ((mask.zip xs).filter (fun p => p.1)).map (fun p => p.2)

/-- `df[mask]`: boolean-mask row selection, applied to the rows and to
every stored column alike. -/
def filterByMask (df : DF) (mask : List Bool) : DF :=
  ⟨maskFilter mask df.rows, df.cols.map (fun c => (c.1, maskFilter mask c.2))⟩

/-- `TechnicalAnalyzer.apply_strategy_rsi_reversal`: ensure the `rsi_14`
column exists (computing it with window 14 if absent — this updates
`self.df`), build the `rsi_14 < threshold` mask, and return the selected
rows.  The result pair is (the analyzer's DataFrame after the call, the
returned signal DataFrame). -/
noncomputable def apply_strategy_rsi_reversal (rsi_threshold : Int) (df : DF) : DF × DF :=
  let df1 := if hasCol df "rsi_14" then df else add_rsi 14 df
  let mask := maskOf (getColD df1 "rsi_14") rsi_threshold
  (df1, filterByMask df1 mask)

/-! ### Basic lemmas about the per-series computations -/

@[simp] theorem gainsAux_length (p : ℚ) (xs : List ℚ) :
    (gainsAux p xs).length = xs.length := by
  induction xs generalizing p with
  | nil => rfl
  | cons x rest ih => simp [gainsAux, ih]

@[simp] theorem gains_length (xs : List ℚ) : (gains xs).length = xs.length := by
  cases xs with
  | nil => rfl
  | cons x rest => simp [gains]

@[simp] theorem lossesAux_length (p : ℚ) (xs : List ℚ) :
    (lossesAux p xs).length = xs.length := by
  induction xs generalizing p with
  | nil => rfl
  | cons x rest ih => simp [lossesAux, ih]

@[simp] theorem losses_length (xs : List ℚ) : (losses xs).length = xs.length := by
  cases xs with
  | nil => rfl
  | cons x rest => simp [losses]

theorem gainsAux_nonneg (p : ℚ) (xs : List ℚ) : ∀ x ∈ gainsAux p xs, 0 ≤ x := by
  induction xs generalizing p with
  | nil => simp [gainsAux]
  | cons y rest ih =>
    intro x hx
    simp only [gainsAux, List.mem_cons] at hx
    rcases hx with h | h
    · subst h
      split
      · linarith
      · exact le_refl 0
    · exact ih y x h

theorem gains_nonneg (xs : List ℚ) : ∀ x ∈ gains xs, 0 ≤ x := by
  cases xs with
  | nil => simp [gains]
  | cons y rest =>
    intro x hx
    rcases List.mem_cons.1 hx with h | h
    · simp [h]
    · exact gainsAux_nonneg y rest x h

theorem lossesAux_nonneg (p : ℚ) (xs : List ℚ) : ∀ x ∈ lossesAux p xs, 0 ≤ x := by
  induction xs generalizing p with
  | nil => simp [lossesAux]
  | cons y rest ih =>
    intro x hx
    simp only [lossesAux, List.mem_cons] at hx
    rcases hx with h | h
    · subst h
      split
      · linarith
      · exact le_refl 0
    · exact ih y x h

theorem losses_nonneg (xs : List ℚ) : ∀ x ∈ losses xs, 0 ≤ x := by
  cases xs with
  | nil => simp [losses]
  | cons y rest =>
    intro x hx
    rcases List.mem_cons.1 hx with h | h
    · simp [h]
    · exact lossesAux_nonneg y rest x h

theorem windowSlice_subset (xs : List ℚ) (w i : Nat) :
    ∀ x ∈ windowSlice xs w i, x ∈ xs := by
  intro x hx
  exact List.drop_subset _ _ (List.take_subset _ _ hx)

theorem rollingMean_none_iff (xs : List ℚ) (w i : Nat) :
    rollingMean xs w i = none ↔ (w = 0 ∨ i + 1 < w ∨ xs.length ≤ i) := by
  unfold rollingMean
  split <;> simp_all

theorem rollingMean_nonneg (xs : List ℚ) (w i : Nat) (m : ℚ)
    (hxs : ∀ x ∈ xs, 0 ≤ x) (h : rollingMean xs w i = some m) : 0 ≤ m := by
  unfold rollingMean at h
  split at h
  · exact absurd h (by simp)
  · have hm : (windowSlice xs w i).sum / (w : ℚ) = m := by injection h
    have hsum : 0 ≤ (windowSlice xs w i).sum :=
      List.sum_nonneg (fun x hx => hxs x (windowSlice_subset xs w i x hx))
    have hw : (0 : ℚ) ≤ (w : ℚ) := by positivity
    rw [← hm]
    exact div_nonneg hsum hw

/-! ### Claims about the RSI per-series computation -/

/-- C1: at every chronological index of a symbol's series at which
`RSI(window)` is defined, if the trailing rolling mean of losses over the
window is zero then the ratio `rs` is normalized to `0` and the RSI value is
`0` (not `100`). -/
theorem rsi_zero_avg_loss_yields_zero (xs : List ℚ) (w i : Nat) (v : ℚ)
    (hloss : rollingMean (losses xs) w i = some 0)
    (hdef : rsiAt xs w i = some v) : v = 0 := by
  unfold rsiAt at hdef
  rcases hg : rollingMean (gains xs) w i with _ | g
  · have : rollingMean (losses xs) w i = none := by
      rw [rollingMean_none_iff] at hg ⊢
      simpa using hg
    rw [this] at hdef
    rw [hg] at hdef
    simp at hdef
  · rw [hg, hloss] at hdef
    simp only [if_pos rfl] at hdef
    by_cases hg0 : g = 0
    · rw [if_pos hg0] at hdef; exact absurd hdef (by simp)
    · rw [if_neg hg0] at hdef
      injection hdef with h
      exact h.symm

/-- Witness for C1 at the concrete series `[1, 2, 3]`, window `2`,
index `2`: the average loss is `0`, the RSI is defined, and it equals `0`. -/
theorem rsi_zero_avg_loss_yields_zero_witness :
    rollingMean (losses [1, 2, 3]) 2 2 = some 0 ∧
      rsiAt [1, 2, 3] 2 2 = some 0 ∧ (0 : ℚ) = 0 :=
  ⟨by norm_num [rollingMean, losses, lossesAux, windowSlice],
   by norm_num [rsiAt, rollingMean, gains, gainsAux, losses, lossesAux, windowSlice],
   rsi_zero_avg_loss_yields_zero [1, 2, 3] 2 2 0
     (by norm_num [rollingMean, losses, lossesAux, windowSlice])
     (by norm_num [rsiAt, rollingMean, gains, gainsAux, losses, lossesAux, windowSlice])⟩

/-- C7: every defined RSI value lies in `[0, 100]`. -/
theorem rsi_bounded (xs : List ℚ) (w i : Nat) (v : ℚ)
    (hdef : rsiAt xs w i = some v) : 0 ≤ v ∧ v ≤ 100 := by
  unfold rsiAt at hdef
  rcases hg : rollingMean (gains xs) w i with _ | g <;> rw [hg] at hdef
  · simp at hdef
  rcases hl : rollingMean (losses xs) w i with _ | l <;> rw [hl] at hdef
  · simp at hdef
  have hgpos : 0 ≤ g := rollingMean_nonneg _ w i g (gains_nonneg xs) hg
  have hlpos : 0 ≤ l := rollingMean_nonneg _ w i l (losses_nonneg xs) hl
  by_cases hl0 : l = 0
  · by_cases hg0 : g = 0
    · simp only [if_pos hl0, if_pos hg0] at hdef
      exact absurd hdef (by simp)
    · simp only [if_pos hl0, if_neg hg0] at hdef
      injection hdef with h
      exact h ▸ ⟨le_refl 0, by norm_num⟩
  · simp only [if_neg hl0] at hdef
    injection hdef with h
    have hrs : 0 ≤ g / l := div_nonneg hgpos hlpos
    have h1 : (1 : ℚ) ≤ 1 + g / l := by linarith
    have hdivpos : 0 ≤ 100 / (1 + g / l) := by positivity
    have hdivle : 100 / (1 + g / l) ≤ 100 := div_le_self (by norm_num) h1
    constructor <;> rw [← h]
    · linarith
    · linarith

/-! ### Lemmas about DataFrame columns and the grouped transform -/

@[simp] theorem rows_setCol (df : DF) (n : String) (vs : List (Option ℝ)) :
    (setCol df n vs).rows = df.rows := rfl

theorem getColList_setColList (cols : List (String × List (Option ℝ)))
    (n : String) (vs : List (Option ℝ)) (m : String) :
    getColList (setColList cols n vs) m = if m = n then some vs else getColList cols m := by
  induction cols with
  | nil =>
    by_cases h : m = n
    · simp [setColList, getColList, h]
    · simp [setColList, getColList, h, Ne.symm h]
  | cons c rest ih =>
    by_cases hc : c.1 = n
    · by_cases h : m = n
      · simp [setColList, getColList, hc, h]
      · simp [setColList, getColList, hc, h, Ne.symm h]
    · by_cases hcm : c.1 = m
      · have h : ¬ m = n := fun h => hc (h ▸ hcm)
        simp [setColList, getColList, hc, hcm, h]
      · simp [setColList, getColList, hc, hcm, ih]

theorem getCol_setCol (df : DF) (n : String) (vs : List (Option ℝ)) (m : String) :
    getCol (setCol df n vs) m = if m = n then some vs else getCol df m :=
  getColList_setColList df.cols n vs m

@[simp] theorem getCol_setCol_same (df : DF) (n : String) (vs : List (Option ℝ)) :
    getCol (setCol df n vs) n = some vs := by
  rw [getCol_setCol, if_pos rfl]

theorem getCol_setCol_ne (df : DF) (n : String) (vs : List (Option ℝ)) (m : String)
    (h : m ≠ n) : getCol (setCol df n vs) m = getCol df m := by
  rw [getCol_setCol, if_neg h]

@[simp] theorem transformClose_length (f : List ℚ → Nat → Option ℝ)
    (rows : List PriceRow) : (transformClose f rows).length = rows.length := by
  simp [transformClose]

theorem transformClose_getD (f : List ℚ → Nat → Option ℝ) (rows : List PriceRow)
    (i : Nat) (r : PriceRow) (h : rows[i]? = some r) :
    (transformClose f rows).getD i none =
      f (seriesOf rows r.ticker) (countTicker rows i r.ticker) := by
  have hi : i < rows.length := by
    by_contra hlen
    rw [List.getElem?_eq_none (by omega)] at h
    exact absurd h (by simp)
  unfold transformClose
  rw [List.getD_eq_getElem?_getD, List.getElem?_map, List.getElem?_range hi]
  simp [h]

theorem countTicker_lt (rows : List PriceRow) (i : Nat) (r : PriceRow)
    (h : rows[i]? = some r) :
    countTicker rows i r.ticker < (seriesOf rows r.ticker).length := by
  have hi : i < rows.length := by
    by_contra hlen
    rw [List.getElem?_eq_none (by omega)] at h
    exact absurd h (by simp)
  have hget : rows[i] = r := by
    have := List.getElem?_eq_getElem hi
    rw [h] at this
    injection this with h2
    exact h2.symm
  unfold countTicker seriesOf
  rw [List.length_map]
  conv_rhs => rw [← List.take_append_drop i rows]
  rw [List.filter_append, List.length_append]
  rw [List.drop_eq_getElem_cons hi, hget, List.filter_cons]
  simp

/-- Witness for C7 at the series `[1, 2, 1, 3]`, window `2`, index `3`:
the RSI is defined (value `200/3`) and the bounds hold there. -/
theorem rsi_bounded_witness :
    rsiAt [1, 2, 1, 3] 2 3 = some (200 / 3) ∧
      (0 : ℚ) ≤ 200 / 3 ∧ (200 : ℚ) / 3 ≤ 100 :=
  ⟨by norm_num [rsiAt, rollingMean, gains, gainsAux, losses, lossesAux, windowSlice],
   rsi_bounded [1, 2, 1, 3] 2 3 (200 / 3)
     (by norm_num [rsiAt, rollingMean, gains, gainsAux, losses, lossesAux, windowSlice])⟩

/-! ### Claim C5: SMA -/

/-- C5: for every table, window `w ≥ 1` and flat row index `i` holding a row
`r`, the `sma_w` cell written by `add_sma` equals the arithmetic mean of
`close` over the trailing `w` points of `r`'s own symbol when the row's
chronological index `k` within its symbol satisfies `k ≥ w - 1`, and is
undefined (`none`) when `k < w - 1`. -/
theorem sma_trailing_mean (df : DF) (w i : Nat) (r : PriceRow) (hw : 1 ≤ w)
    (hr : df.rows[i]? = some r) :
    getCell (add_sma w df) (smaName w) i =
      (if w ≤ countTicker df.rows i r.ticker + 1
       then some (((windowSlice (seriesOf df.rows r.ticker) w
                      (countTicker df.rows i r.ticker)).sum / (w : ℚ) : ℚ) : ℝ)
       else none) := by
  have hlt : countTicker df.rows i r.ticker < (seriesOf df.rows r.ticker).length :=
    countTicker_lt df.rows i r hr
  unfold getCell getColD add_sma rollingMeanVals
  rw [getCol_setCol_same, Option.getD_some, transformClose_getD _ _ i r hr]
  by_cases hcase : w ≤ countTicker df.rows i r.ticker + 1
  · have hmean : rollingMean (seriesOf df.rows r.ticker) w (countTicker df.rows i r.ticker) =
        some ((windowSlice (seriesOf df.rows r.ticker) w
                (countTicker df.rows i r.ticker)).sum / (w : ℚ)) := by
      unfold rollingMean
      rw [if_neg (by omega)]
    rw [if_pos hcase]
    simp [liftQ, hmean]
  · have hmean : rollingMean (seriesOf df.rows r.ticker) w
        (countTicker df.rows i r.ticker) = none := by
      rw [rollingMean_none_iff]
      omega
    rw [if_neg hcase]
    simp [liftQ, hmean]

/-- Witness for C5: a three-row table over two tickers; at flat index `1`
(the second `"A"` row) with window `2` the hypotheses hold concretely. -/
theorem sma_trailing_mean_witness :
    (1 ≤ 2 ∧
      (DF.mk [⟨"A", 1, 0, 0, 0, 10, 0⟩, ⟨"A", 2, 0, 0, 0, 20, 0⟩,
              ⟨"B", 1, 0, 0, 0, 100, 0⟩] []).rows[1]? = some ⟨"A", 2, 0, 0, 0, 20, 0⟩) ∧
    getCell (add_sma 2 (DF.mk [⟨"A", 1, 0, 0, 0, 10, 0⟩, ⟨"A", 2, 0, 0, 0, 20, 0⟩,
              ⟨"B", 1, 0, 0, 0, 100, 0⟩] [])) (smaName 2) 1 =
      (if 2 ≤ countTicker (DF.mk [⟨"A", 1, 0, 0, 0, 10, 0⟩, ⟨"A", 2, 0, 0, 0, 20, 0⟩,
              ⟨"B", 1, 0, 0, 0, 100, 0⟩] []).rows 1 "A" + 1
       then some (((windowSlice (seriesOf (DF.mk [⟨"A", 1, 0, 0, 0, 10, 0⟩,
              ⟨"A", 2, 0, 0, 0, 20, 0⟩, ⟨"B", 1, 0, 0, 0, 100, 0⟩] []).rows "A") 2
                      (countTicker (DF.mk [⟨"A", 1, 0, 0, 0, 10, 0⟩,
              ⟨"A", 2, 0, 0, 0, 20, 0⟩, ⟨"B", 1, 0, 0, 0, 100, 0⟩] []).rows 1 "A")).sum
                    / (2 : ℚ) : ℚ) : ℝ)
       else none) :=
  ⟨⟨by norm_num, by decide⟩,
   sma_trailing_mean _ 2 1 ⟨"A", 2, 0, 0, 0, 20, 0⟩ (by norm_num) (by decide)⟩

/-! ### Column-name disequalities -/

theorem stringAppend_data (s t : String) : (s ++ t).data = s.data ++ t.data := by
  cases s
  cases t
  rfl

theorem string_ne_of_head_ne (s t : String)
    (h : s.data.head? ≠ t.data.head?) : s ≠ t := fun he => h (he ▸ rfl)

theorem smaName_head (w : Nat) : (smaName w).data.head? = some 's' := by
  show ("sma_" ++ toString w).data.head? = some 's'
  rw [stringAppend_data]
  rfl

theorem rsiName_head (w : Nat) : (rsiName w).data.head? = some 'r' := by
  show ("rsi_" ++ toString w).data.head? = some 'r'
  rw [stringAppend_data]
  rfl

theorem smaName_ne_rsiName (w w' : Nat) : smaName w ≠ rsiName w' :=
  string_ne_of_head_ne _ _ (by rw [smaName_head, rsiName_head]; decide)

theorem smaName_ne_bbMid (w : Nat) : smaName w ≠ "bb_mid" :=
  string_ne_of_head_ne _ _ (by rw [smaName_head]; decide)

theorem smaName_ne_bbUpper (w : Nat) : smaName w ≠ "bb_upper" :=
  string_ne_of_head_ne _ _ (by rw [smaName_head]; decide)

theorem smaName_ne_bbLower (w : Nat) : smaName w ≠ "bb_lower" :=
  string_ne_of_head_ne _ _ (by rw [smaName_head]; decide)

theorem rsiName_ne_bbMid (w : Nat) : rsiName w ≠ "bb_mid" :=
  string_ne_of_head_ne _ _ (by rw [rsiName_head]; decide)

theorem rsiName_ne_bbUpper (w : Nat) : rsiName w ≠ "bb_upper" :=
  string_ne_of_head_ne _ _ (by rw [rsiName_head]; decide)

theorem rsiName_ne_bbLower (w : Nat) : rsiName w ≠ "bb_lower" :=
  string_ne_of_head_ne _ _ (by rw [rsiName_head]; decide)

/-! ### The Bollinger call in canonical triple-write form -/

theorem add_bollinger_bands_eq (w : Nat) (n : Int) (df : DF) :
    add_bollinger_bands w n df =
      setCol (setCol (setCol df "bb_mid" (rollingMeanVals df.rows w))
          "bb_upper" (bollUpperVals df.rows w n))
        "bb_lower" (bollLowerVals df.rows w n) := by
  unfold add_bollinger_bands bollUpperVals bollLowerVals
  simp only [rows_setCol, getColD, getCol_setCol_same, Option.getD_some,
    getCol_setCol_ne _ "bb_upper" _ "bb_mid" (by decide)]

/-! ### Claim C8: the Bollinger midline is the SMA -/

/-- C8: for every table, window and `num_std`, the whole `bb_mid` column
written by `add_bollinger_bands` coincides with the `sma_w` column written
by `add_sma` with the same window (same trailing-mean transform, same
per-symbol scoping); in particular they agree at every index at which
either is defined. -/
theorem bollinger_mid_is_sma (df : DF) (w : Nat) (n : Int) :
    getCol (add_bollinger_bands w n df) "bb_mid" = getCol (add_sma w df) (smaName w) := by
  rw [add_bollinger_bands_eq]
  rw [getCol_setCol_ne _ _ _ _ (by decide)]
  rw [getCol_setCol_ne _ _ _ _ (by decide)]
  rw [getCol_setCol_same]
  unfold add_sma
  rw [getCol_setCol_same]

/-! ### Claim C9: band symmetry around the midline -/

theorem zipOpt_cons (f : ℝ → ℝ → ℝ) (a b : Option ℝ) (as bs : List (Option ℝ)) :
    zipOpt f (a :: as) (b :: bs) =
      (match a, b with
       | some x, some y => some (f x y)
       | _, _ => none) :: zipOpt f as bs := rfl

theorem zipOpt_comp_left (f g : ℝ → ℝ → ℝ) (as bs : List (Option ℝ)) :
    zipOpt f (zipOpt g as bs) as = zipOpt (fun a b => f (g a b) a) as bs := by
  induction as generalizing bs with
  | nil => rfl
  | cons a as ih =>
    cases bs with
    | nil => rfl
    | cons b bs =>
      cases a <;> cases b <;> simp [zipOpt_cons, ih]

theorem zipOpt_comp_right (f g : ℝ → ℝ → ℝ) (as bs : List (Option ℝ)) :
    zipOpt f as (zipOpt g as bs) = zipOpt (fun a b => f a (g a b)) as bs := by
  induction as generalizing bs with
  | nil => rfl
  | cons a as ih =>
    cases bs with
    | nil => cases a <;> rfl
    | cons b bs =>
      cases a <;> cases b <;> simp [zipOpt_cons, ih]

theorem zipOpt_congr (f g : ℝ → ℝ → ℝ) (h : ∀ x y, f x y = g x y)
    (as bs : List (Option ℝ)) : zipOpt f as bs = zipOpt g as bs := by
  unfold zipOpt
  congr 1
  funext a b
  cases a <;> cases b <;> simp [h]

/-- C9: the Bollinger bands are symmetric around the midline: the
elementwise (NaN-propagating) column difference `bb_upper - bb_mid` equals
`bb_mid - bb_lower`; in particular `upper - mid = mid - lower` at every
index at which all three bands are defined, and the bands are undefined at
exactly the same indices on both sides. -/
theorem bollinger_bands_symmetric (df : DF) (w : Nat) (n : Int) :
    zipOpt (fun a b => a - b) (getColD (add_bollinger_bands w n df) "bb_upper")
        (getColD (add_bollinger_bands w n df) "bb_mid") =
      zipOpt (fun a b => a - b) (getColD (add_bollinger_bands w n df) "bb_mid")
        (getColD (add_bollinger_bands w n df) "bb_lower") := by
  rw [add_bollinger_bands_eq]
  rw [show getColD (setCol (setCol (setCol df "bb_mid" (rollingMeanVals df.rows w))
        "bb_upper" (bollUpperVals df.rows w n)) "bb_lower" (bollLowerVals df.rows w n))
        "bb_lower" = bollLowerVals df.rows w n by
      simp [getColD]]
  rw [show getColD (setCol (setCol (setCol df "bb_mid" (rollingMeanVals df.rows w))
        "bb_upper" (bollUpperVals df.rows w n)) "bb_lower" (bollLowerVals df.rows w n))
        "bb_upper" = bollUpperVals df.rows w n by
      rw [getColD, getCol_setCol_ne _ _ _ _ (by decide), getCol_setCol_same]
      rfl]
  rw [show getColD (setCol (setCol (setCol df "bb_mid" (rollingMeanVals df.rows w))
        "bb_upper" (bollUpperVals df.rows w n)) "bb_lower" (bollLowerVals df.rows w n))
        "bb_mid" = rollingMeanVals df.rows w by
      rw [getColD, getCol_setCol_ne _ _ _ _ (by decide),
        getCol_setCol_ne _ _ _ _ (by decide), getCol_setCol_same]
      rfl]
  unfold bollUpperVals bollLowerVals
  rw [zipOpt_comp_left, zipOpt_comp_right]
  rw [zipOpt_congr (fun a b => a + b * (n : ℝ) - a) (fun a b => b * (n : ℝ))
    (fun x y => by ring)]
  rw [zipOpt_congr (fun a b => a - (a - b * (n : ℝ))) (fun a b => b * (n : ℝ))
    (fun x y => by ring)]

/-! ### Claim C2: what the strategy call does to the table -/

/-- C2 counterexample: on a table without an `rsi_14` column, evaluating the
signal strategy does NOT leave the table unchanged — the call computes and
stores the `rsi_14` field, so the analyzer's DataFrame after the call
differs from the one before (it gained a column). -/
theorem rsi_reversal_mutates_table :
    (apply_strategy_rsi_reversal 30 ⟨[⟨"A", 0, 1, 1, 1, 1, 1⟩], []⟩).1 ≠
      (⟨[⟨"A", 0, 1, 1, 1, 1, 1⟩], []⟩ : DF) := by
  intro h
  have h1 : (apply_strategy_rsi_reversal 30
      (⟨[⟨"A", 0, 1, 1, 1, 1, 1⟩], []⟩ : DF)).1.cols.length = 1 := rfl
  rw [h] at h1
  exact absurd h1 (by decide)

/-- C2 (amended): evaluating the signal strategy leaves the table unchanged
whenever the `rsi_14` field is already present; when it is absent the call
adds exactly the `rsi_14` field (window fixed at 14) — the rows and every
other field are untouched in either case. -/
theorem rsi_reversal_table_effect (t : Int) (df : DF) :
    (apply_strategy_rsi_reversal t df).1 =
      (if hasCol df "rsi_14" then df else add_rsi 14 df) ∧
    (apply_strategy_rsi_reversal t df).1.rows = df.rows ∧
    ∀ m, m ≠ "rsi_14" →
      getCol (apply_strategy_rsi_reversal t df).1 m = getCol df m := by
  refine ⟨rfl, ?_, ?_⟩
  · show (if hasCol df "rsi_14" then df else add_rsi 14 df).rows = df.rows
    split
    · rfl
    · simp [add_rsi]
  · intro m hm
    show getCol (if hasCol df "rsi_14" then df else add_rsi 14 df) m = getCol df m
    split
    · rfl
    · exact getCol_setCol_ne df (rsiName 14) _ m
        (fun he => hm (he.trans (rfl : rsiName 14 = "rsi_14")))

/-- Witness for the amended C2 at a concrete table and the unrelated column
name `"sma_20"`. -/
theorem rsi_reversal_table_effect_witness :
    ("sma_20" : String) ≠ "rsi_14" ∧
      getCol (apply_strategy_rsi_reversal 30 ⟨[⟨"A", 0, 1, 1, 1, 1, 1⟩], []⟩).1 "sma_20" =
        getCol (⟨[⟨"A", 0, 1, 1, 1, 1, 1⟩], []⟩ : DF) "sma_20" :=
  ⟨by decide, (rsi_reversal_table_effect 30 _).2.2 "sma_20" (by decide)⟩

/-! ### Claim C4: table construction -/

instance : IsTotal PriceRow lexLE :=
  ⟨fun a b => by
    unfold lexLE
    rcases lt_trichotomy a.ticker b.ticker with h | h | h
    · exact Or.inl (Or.inl h)
    · rcases le_total a.date b.date with hd | hd
      · exact Or.inl (Or.inr ⟨h, hd⟩)
      · exact Or.inr (Or.inr ⟨h.symm, hd⟩)
    · exact Or.inr (Or.inl h)⟩

instance : IsTrans PriceRow lexLE :=
  ⟨fun a b c hab hbc => by
    unfold lexLE at hab hbc ⊢
    rcases hab with h1 | ⟨e1, d1⟩ <;> rcases hbc with h2 | ⟨e2, d2⟩
    · exact Or.inl (lt_trans h1 h2)
    · exact Or.inl (by rw [← e2]; exact h1)
    · exact Or.inl (by rw [e1]; exact h2)
    · exact Or.inr ⟨e1.trans e2, le_trans d1 d2⟩⟩

/-- C4: construction fails (with the empty-input error) exactly when the
input row sequence is empty; on every non-empty input it succeeds, and the
resulting flattened view is a permutation of the input that is sorted by
(ticker, date) — symbols grouped, dates ascending within each symbol. -/
theorem construct_rejects_empty_and_sorts (rows : List PriceRow) :
    ((∃ e, TechnicalAnalyzer.init rows = Except.error e) ↔ rows = []) ∧
    ∀ df, TechnicalAnalyzer.init rows = Except.ok df →
      df.rows.Pairwise lexLE ∧ rows.Perm df.rows ∧ df.cols = [] := by
  constructor
  · constructor
    · rintro ⟨e, he⟩
      unfold TechnicalAnalyzer.init at he
      by_cases h : rows = []
      · exact h
      · rw [if_neg h] at he
        exact absurd he (by simp)
    · intro h
      exact ⟨"Input DataFrame is empty.", by simp [TechnicalAnalyzer.init, h]⟩
  · intro df hdf
    unfold TechnicalAnalyzer.init at hdf
    by_cases h : rows = []
    · rw [if_pos h] at hdf
      exact absurd hdf (by simp)
    · rw [if_neg h] at hdf
      have hd : (⟨sortRows rows, []⟩ : DF) = df := by
        injection hdf
      cases hd
      refine ⟨?_, ?_, rfl⟩
      · exact List.sorted_insertionSort lexLE rows
      · exact (List.perm_insertionSort lexLE rows).symm

/-- Witness for C4: a concrete two-ticker input, constructed successfully,
with the flattened view sorted and a permutation of the input. -/
theorem construct_rejects_empty_and_sorts_witness :
    TechnicalAnalyzer.init [⟨"B", 1, 0, 0, 0, 5, 0⟩, ⟨"A", 2, 0, 0, 0, 7, 0⟩] =
        Except.ok ⟨[⟨"A", 2, 0, 0, 0, 7, 0⟩, ⟨"B", 1, 0, 0, 0, 5, 0⟩], []⟩ ∧
      ((⟨[⟨"A", 2, 0, 0, 0, 7, 0⟩, ⟨"B", 1, 0, 0, 0, 5, 0⟩], []⟩ : DF).rows.Pairwise lexLE ∧
        ([⟨"B", 1, 0, 0, 0, 5, 0⟩, ⟨"A", 2, 0, 0, 0, 7, 0⟩] : List PriceRow).Perm
          (⟨[⟨"A", 2, 0, 0, 0, 7, 0⟩, ⟨"B", 1, 0, 0, 0, 5, 0⟩], []⟩ : DF).rows ∧
        (⟨[⟨"A", 2, 0, 0, 0, 7, 0⟩, ⟨"B", 1, 0, 0, 0, 5, 0⟩], []⟩ : DF).cols = []) :=
  ⟨rfl, (construct_rejects_empty_and_sorts _).2 _ rfl⟩

/-! ### Claim C3: the RSI-reversal selection -/

/-- The per-cell test of the signal mask: `True` exactly when the cell is a
defined value strictly below the threshold (a `NaN` cell compares as
`False` in pandas). -/
noncomputable def cellHit (t : Int) : Option ℝ → Bool
  | some x => decide (x < (t : ℝ))
  | none => false

theorem maskOf_eq_map (vs : List (Option ℝ)) (t : Int) :
    maskOf vs t = vs.map (cellHit t) := by
  unfold maskOf
  apply List.map_congr_left
  intro v hv
  cases v <;> rfl

/-- The spec's description of the `RSIReversal` result set: every
PricePoint, in flattened-view order (the order of the table's rows), whose
`rsi_14` value is defined and strictly less than the threshold; points with
an undefined RSI never match. -/
noncomputable def rsiSignalsSpec (df : DF) (t : Int) : List PriceRow :=
  (df.rows.enum.filter (fun q => cellHit t (getCell df "rsi_14" q.1))).map
    (fun q => q.2)

@[simp] theorem maskFilter_nil_mask {α : Type} (xs : List α) :
    maskFilter ([] : List Bool) xs = [] := rfl

@[simp] theorem maskFilter_nil {α : Type} (mask : List Bool) :
    maskFilter mask ([] : List α) = [] := by
  cases mask <;> rfl

theorem maskFilter_cons {α : Type} (b : Bool) (mask : List Bool) (x : α) (xs : List α) :
    maskFilter (b :: mask) (x :: xs) =
      if b then x :: maskFilter mask xs else maskFilter mask xs := by
  cases b <;> simp [maskFilter]

theorem filter_enumFrom_nil_cells (t : Int) (xs : List PriceRow) (n : Nat) :
    ((xs.enumFrom n).filter
      (fun q => cellHit t (([] : List (Option ℝ)).getD (q.1 - n) none))).map
        (fun q => q.2) = [] := by
  have hall : ∀ q ∈ xs.enumFrom n,
      ¬ (cellHit t (([] : List (Option ℝ)).getD (q.1 - n) none) = true) := by
    intro q _
    simp [cellHit, List.getD]
  rw [List.filter_eq_nil_iff.mpr hall]
  rfl

theorem maskFilter_maskOf_enumFrom (t : Int) (xs : List PriceRow) :
    ∀ (vs : List (Option ℝ)) (n : Nat),
    maskFilter (vs.map (cellHit t)) xs =
      ((xs.enumFrom n).filter (fun q => cellHit t (vs.getD (q.1 - n) none))).map
        (fun q => q.2) := by
  induction xs with
  | nil => intro vs n; simp
  | cons x xs ih =>
    intro vs n
    cases vs with
    | nil =>
      rw [filter_enumFrom_nil_cells]
      rfl
    | cons v vs =>
      have henum : (x :: xs).enumFrom n = (n, x) :: xs.enumFrom (n + 1) := rfl
      rw [henum, List.filter_cons]
      have hhead : cellHit t ((v :: vs).getD (n - n) none) = cellHit t v := by
        simp
      rw [hhead]
      have htail : (xs.enumFrom (n + 1)).filter
            (fun q => cellHit t ((v :: vs).getD (q.1 - n) none)) =
          (xs.enumFrom (n + 1)).filter
            (fun q => cellHit t (vs.getD (q.1 - (n + 1)) none)) := by
        apply List.filter_congr
        intro q hq
        rcases q with ⟨i, y⟩
        rw [List.mk_mem_enumFrom_iff_le_and_getElem?_sub] at hq
        have hle : n + 1 ≤ i := hq.1
        have hidx : i - n = (i - (n + 1)) + 1 := by omega
        rw [hidx]
        simp
      rw [htail]
      rw [List.map_cons, maskFilter_cons]
      cases hv : cellHit t v <;> simp [ih vs (n + 1)]

/-- The rows kept by the boolean-mask selection are exactly the rows whose
`rsi_14` cell is a hit, in table order. -/
theorem filterByMask_rows_spec (d : DF) (t : Int) :
    (filterByMask d (maskOf (getColD d "rsi_14") t)).rows = rsiSignalsSpec d t := by
  show maskFilter (maskOf (getColD d "rsi_14") t) d.rows = _
  rw [maskOf_eq_map]
  unfold rsiSignalsSpec getCell
  have := maskFilter_maskOf_enumFrom t d.rows (getColD d "rsi_14") 0
  simpa [List.enum] using this

theorem hasColList_setColList_self (cols : List (String × List (Option ℝ)))
    (n : String) (vs : List (Option ℝ)) :
    hasColList (setColList cols n vs) n = true := by
  induction cols with
  | nil => simp [setColList, hasColList]
  | cons c rest ih =>
    by_cases hc : c.1 = n
    · simp [setColList, hasColList, hc]
    · simp [setColList, hasColList, hc, ih]

/-- C3: the strategy call first ensures an `rsi_14` column exists
(computing it with window fixed at 14 when absent), and its returned signal
set consists of exactly those PricePoints, across all symbols and dates,
whose `rsi_14` value is defined and strictly less than the threshold — in
the table's flattened-view row order (points with `rsi_14 = t` or an
undefined `rsi_14` are never returned). -/
theorem rsi_reversal_signal_set (t : Int) (df : DF) :
    hasCol (apply_strategy_rsi_reversal t df).1 "rsi_14" = true ∧
      (apply_strategy_rsi_reversal t df).2.rows =
        rsiSignalsSpec (apply_strategy_rsi_reversal t df).1 t := by
  constructor
  · show hasCol (if hasCol df "rsi_14" then df else add_rsi 14 df) "rsi_14" = true
    split
    · assumption
    · exact hasColList_setColList_self df.cols (rsiName 14) _
  · exact filterByMask_rows_spec (if hasCol df "rsi_14" then df else add_rsi 14 df) t

/-! ### Claim C6: the indicator operations commute -/

/-- One invocation of an indicator method, with its parameters. -/
inductive IndicatorOp where
  | sma (w : Nat)
  | rsi (w : Nat)
  | boll (w : Nat) (num_std : Int)
deriving DecidableEq

noncomputable def applyIndicatorOp : IndicatorOp → DF → DF
  | IndicatorOp.sma w, df => add_sma w df
  | IndicatorOp.rsi w, df => add_rsi w df
  | IndicatorOp.boll w n, df => add_bollinger_bands w n df

/-- A chain of indicator calls, applied left to right. -/
noncomputable def applyIndicatorOps (l : List IndicatorOp) (df : DF) : DF :=
  l.foldl (fun d o => applyIndicatorOp o d) df

/-- The column names an operation writes. -/
def opWriteNames : IndicatorOp → List String
  | IndicatorOp.sma w => [smaName w]
  | IndicatorOp.rsi w => [rsiName w]
  | IndicatorOp.boll _ _ => ["bb_mid", "bb_upper", "bb_lower"]

/-- The values an operation stores in a written column, as a function of
the base rows alone. -/
noncomputable def opVals : IndicatorOp → List PriceRow → String → List (Option ℝ)
  | IndicatorOp.sma w, rows, _ => rollingMeanVals rows w
  | IndicatorOp.rsi w, rows, _ => rsiVals rows w
  | IndicatorOp.boll w n, rows, m =>
      if m = "bb_upper" then bollUpperVals rows w n
      else if m = "bb_lower" then bollLowerVals rows w n
      else rollingMeanVals rows w

@[simp] theorem rows_applyIndicatorOp (o : IndicatorOp) (df : DF) :
    (applyIndicatorOp o df).rows = df.rows := by
  cases o with
  | sma w => rfl
  | rsi w => rfl
  | boll w n => rw [applyIndicatorOp, add_bollinger_bands_eq]; rfl

/-- Every indicator operation reads only the base rows and writes only its
own columns: the resulting column map, observed through `getCol`. -/
theorem getCol_applyIndicatorOp (o : IndicatorOp) (df : DF) (m : String) :
    getCol (applyIndicatorOp o df) m =
      if m ∈ opWriteNames o then some (opVals o df.rows m) else getCol df m := by
  cases o with
  | sma w =>
    show getCol (setCol df (smaName w) (rollingMeanVals df.rows w)) m = _
    rw [getCol_setCol]
    simp [opWriteNames, opVals]
  | rsi w =>
    show getCol (setCol df (rsiName w) (rsiVals df.rows w)) m = _
    rw [getCol_setCol]
    simp [opWriteNames, opVals]
  | boll w n =>
    rw [applyIndicatorOp, add_bollinger_bands_eq]
    rw [getCol_setCol, getCol_setCol, getCol_setCol]
    by_cases h1 : m = "bb_lower"
    · simp [opWriteNames, opVals, h1]
    · by_cases h2 : m = "bb_upper"
      · simp [opWriteNames, opVals, h1, h2]
      · by_cases h3 : m = "bb_mid"
        · simp [opWriteNames, opVals, h1, h2, h3]
        · simp [opWriteNames, opVals, h1, h2, h3]

/-- Observational equality of DataFrames: same rows, same value in every
column. -/
def DFEq (d1 d2 : DF) : Prop :=
  d1.rows = d2.rows ∧ ∀ m, getCol d1 m = getCol d2 m

theorem DFEq.refl (d : DF) : DFEq d d := ⟨rfl, fun _ => rfl⟩

theorem DFEq.trans {d1 d2 d3 : DF} (h1 : DFEq d1 d2) (h2 : DFEq d2 d3) :
    DFEq d1 d3 :=
  ⟨h1.1.trans h2.1, fun m => (h1.2 m).trans (h2.2 m)⟩

theorem DFEq.applyOp {d1 d2 : DF} (o : IndicatorOp) (h : DFEq d1 d2) :
    DFEq (applyIndicatorOp o d1) (applyIndicatorOp o d2) := by
  refine ⟨?_, ?_⟩
  · rw [rows_applyIndicatorOp, rows_applyIndicatorOp]
    exact h.1
  · intro m
    rw [getCol_applyIndicatorOp, getCol_applyIndicatorOp, h.1]
    split
    · rfl
    · exact h.2 m

theorem DFEq.applyOps {d1 d2 : DF} (l : List IndicatorOp) (h : DFEq d1 d2) :
    DFEq (applyIndicatorOps l d1) (applyIndicatorOps l d2) := by
  induction l generalizing d1 d2 with
  | nil => exact h
  | cons o l ih => exact ih (h.applyOp o)

/-- Two operations with disjoint write sets (or two equal operations)
commute, observationally. -/
theorem applyIndicatorOp_comm (o1 o2 : IndicatorOp) (df : DF)
    (h : o1 = o2 ∨ ∀ m, m ∈ opWriteNames o1 → m ∉ opWriteNames o2) :
    DFEq (applyIndicatorOp o1 (applyIndicatorOp o2 df))
      (applyIndicatorOp o2 (applyIndicatorOp o1 df)) := by
  rcases h with h | h
  · subst h
    exact DFEq.refl _
  · refine ⟨by simp, ?_⟩
    intro m
    rw [getCol_applyIndicatorOp, getCol_applyIndicatorOp,
      getCol_applyIndicatorOp, getCol_applyIndicatorOp]
    simp only [rows_applyIndicatorOp]
    by_cases h1 : m ∈ opWriteNames o1 <;> by_cases h2 : m ∈ opWriteNames o2
    · exact absurd h2 (h m h1)
    · simp [h1, h2]
    · simp [h1, h2]
    · simp [h1, h2]

/-- Any two operations drawn from one fixed parameterisation of the three
indicator methods are equal or write disjoint column sets. -/
theorem triple_ops_comm (w1 w2 w3 : Nat) (n : Int) (o1 o2 : IndicatorOp)
    (h1 : o1 ∈ [IndicatorOp.sma w1, IndicatorOp.rsi w2, IndicatorOp.boll w3 n])
    (h2 : o2 ∈ [IndicatorOp.sma w1, IndicatorOp.rsi w2, IndicatorOp.boll w3 n]) :
    o1 = o2 ∨ ∀ m, m ∈ opWriteNames o1 → m ∉ opWriteNames o2 := by
  simp only [List.mem_cons, List.not_mem_nil, or_false] at h1 h2
  rcases h1 with rfl | rfl | rfl <;> rcases h2 with rfl | rfl | rfl
  · exact Or.inl rfl
  · refine Or.inr ?_
    intro m hm1 hm2
    simp only [opWriteNames, List.mem_singleton] at hm1 hm2
    exact absurd (hm1.symm.trans hm2) (smaName_ne_rsiName w1 w2)
  · refine Or.inr ?_
    intro m hm1 hm2
    simp only [opWriteNames, List.mem_singleton, List.mem_cons,
      List.not_mem_nil, or_false] at hm1 hm2
    rcases hm2 with h | h | h
    · exact absurd (hm1.symm.trans h) (smaName_ne_bbMid w1)
    · exact absurd (hm1.symm.trans h) (smaName_ne_bbUpper w1)
    · exact absurd (hm1.symm.trans h) (smaName_ne_bbLower w1)
  · refine Or.inr ?_
    intro m hm1 hm2
    simp only [opWriteNames, List.mem_singleton] at hm1 hm2
    exact absurd (hm1.symm.trans hm2) (Ne.symm (smaName_ne_rsiName w1 w2))
  · exact Or.inl rfl
  · refine Or.inr ?_
    intro m hm1 hm2
    simp only [opWriteNames, List.mem_singleton, List.mem_cons,
      List.not_mem_nil, or_false] at hm1 hm2
    rcases hm2 with h | h | h
    · exact absurd (hm1.symm.trans h) (rsiName_ne_bbMid w2)
    · exact absurd (hm1.symm.trans h) (rsiName_ne_bbUpper w2)
    · exact absurd (hm1.symm.trans h) (rsiName_ne_bbLower w2)
  · refine Or.inr ?_
    intro m hm1 hm2
    simp only [opWriteNames, List.mem_singleton, List.mem_cons,
      List.not_mem_nil, or_false] at hm1 hm2
    rcases hm1 with h | h | h
    · exact absurd (hm2.symm.trans h) (smaName_ne_bbMid w1)
    · exact absurd (hm2.symm.trans h) (smaName_ne_bbUpper w1)
    · exact absurd (hm2.symm.trans h) (smaName_ne_bbLower w1)
  · refine Or.inr ?_
    intro m hm1 hm2
    simp only [opWriteNames, List.mem_singleton, List.mem_cons,
      List.not_mem_nil, or_false] at hm1 hm2
    rcases hm1 with h | h | h
    · exact absurd (hm2.symm.trans h) (rsiName_ne_bbMid w2)
    · exact absurd (hm2.symm.trans h) (rsiName_ne_bbUpper w2)
    · exact absurd (hm2.symm.trans h) (rsiName_ne_bbLower w2)
  · exact Or.inl rfl

theorem applyIndicatorOps_perm_aux (w1 w2 w3 : Nat) (n : Int)
    {l1 l2 : List IndicatorOp} (hp : l1.Perm l2) :
    (∀ o ∈ l1, o ∈ [IndicatorOp.sma w1, IndicatorOp.rsi w2, IndicatorOp.boll w3 n]) →
    ∀ df, DFEq (applyIndicatorOps l1 df) (applyIndicatorOps l2 df) := by
  induction hp with
  | nil =>
    intro _ df
    exact DFEq.refl _
  | cons x hp ih =>
    intro h df
    exact ih (fun o ho => h o (List.mem_cons_of_mem x ho)) (applyIndicatorOp x df)
  | swap x y l =>
    intro h df
    have hx : x ∈ [IndicatorOp.sma w1, IndicatorOp.rsi w2, IndicatorOp.boll w3 n] :=
      h x (by simp)
    have hy : y ∈ [IndicatorOp.sma w1, IndicatorOp.rsi w2, IndicatorOp.boll w3 n] :=
      h y (by simp)
    exact DFEq.applyOps l
      (applyIndicatorOp_comm x y df (triple_ops_comm w1 w2 w3 n x y hx hy))
  | trans hp1 hp2 ih1 ih2 =>
    intro h df
    exact DFEq.trans (ih1 h df) (ih2 (fun o ho => h o (hp1.mem_iff.mpr ho)) df)

/-- C6: applying any sub-collection of the three indicator operations (with
fixed parameters) in any order yields a table with identical rows and
identical values in every resulting field — the operations commute, since
none reads another's output. -/
theorem indicator_pipeline_commutes (w1 w2 w3 : Nat) (n : Int)
    (l1 l2 : List IndicatorOp)
    (hsub : ∀ o ∈ l1, o ∈ [IndicatorOp.sma w1, IndicatorOp.rsi w2, IndicatorOp.boll w3 n])
    (hperm : l1.Perm l2) (df : DF) :
    (applyIndicatorOps l1 df).rows = (applyIndicatorOps l2 df).rows ∧
      ∀ m, getCol (applyIndicatorOps l1 df) m = getCol (applyIndicatorOps l2 df) m :=
  applyIndicatorOps_perm_aux w1 w2 w3 n hperm hsub df

/-- Witness for C6: Bollinger-before-RSI versus RSI-before-Bollinger (with
the SMA in between), on a concrete one-row table. -/
theorem indicator_pipeline_commutes_witness :
    (∀ o ∈ [IndicatorOp.boll 20 2, IndicatorOp.sma 20, IndicatorOp.rsi 14],
        o ∈ [IndicatorOp.sma 20, IndicatorOp.rsi 14, IndicatorOp.boll 20 2]) ∧
    ([IndicatorOp.boll 20 2, IndicatorOp.sma 20, IndicatorOp.rsi 14].Perm
        [IndicatorOp.sma 20, IndicatorOp.rsi 14, IndicatorOp.boll 20 2]) ∧
    ((applyIndicatorOps [IndicatorOp.boll 20 2, IndicatorOp.sma 20, IndicatorOp.rsi 14]
          ⟨[⟨"A", 1, 0, 0, 0, 10, 0⟩], []⟩).rows =
        (applyIndicatorOps [IndicatorOp.sma 20, IndicatorOp.rsi 14, IndicatorOp.boll 20 2]
          ⟨[⟨"A", 1, 0, 0, 0, 10, 0⟩], []⟩).rows ∧
      ∀ m, getCol (applyIndicatorOps [IndicatorOp.boll 20 2, IndicatorOp.sma 20,
            IndicatorOp.rsi 14] ⟨[⟨"A", 1, 0, 0, 0, 10, 0⟩], []⟩) m =
          getCol (applyIndicatorOps [IndicatorOp.sma 20, IndicatorOp.rsi 14,
            IndicatorOp.boll 20 2] ⟨[⟨"A", 1, 0, 0, 0, 10, 0⟩], []⟩) m) :=
  ⟨by decide, by decide,
   indicator_pipeline_commutes 20 14 20 2 _ _ (by decide) (by decide)
     ⟨[⟨"A", 1, 0, 0, 0, 10, 0⟩], []⟩⟩

/-! ### Claim C10: construction copies the caller's data

Python objects live on a heap and `TechnicalAnalyzer` methods mutate
`self.df` in place, so the aliasing content of `df.copy()` in `__init__` is
modelled with an explicit heap: a list of DataFrame objects, an object
reference being an index into it.  `__init__` reads the caller's frame,
allocates a NEW cell for the analyzer's (copied, then sorted) frame, and
every method call writes only the analyzer's own cell. -/

instance : DecidableRel (fun (p q : PriceRow × List (Option ℝ)) => lexLE p.1 q.1) :=
  fun p q => inferInstanceAs (Decidable (lexLE p.1 q.1))

/-- `sort_values(by=['ticker', 'date'])` on a full DataFrame: the rows are
reordered and every stored column cell travels with its row. -/
def sortDF (d : DF) : DF :=
  let paired : List (PriceRow × List (Option ℝ)) :=
    (List.range d.rows.length).map (fun i =>
      (d.rows.getD i default, d.cols.map (fun c => c.2.getD i none)))
  let sorted := List.insertionSort (fun p q => lexLE p.1 q.1) paired
  ⟨sorted.map (fun p => p.1),
   (List.range d.cols.length).map (fun j =>
     ((d.cols.getD j ("", [])).1, sorted.map (fun p => p.2.getD j none)))⟩

/-- One method call on a `TechnicalAnalyzer` whose `self.df` lives at heap
address `a`; indicator methods and the strategy call all reassign
`self.df`. -/
inductive AnalyzerOp where
  | indicator (o : IndicatorOp)
  | strategy (t : Int)

noncomputable def runAnalyzerOp (h : List DF) (a : Nat) : AnalyzerOp → List DF
  | AnalyzerOp.indicator o => h.set a (applyIndicatorOp o (h.getD a default))
  | AnalyzerOp.strategy t =>
      h.set a ((apply_strategy_rsi_reversal t (h.getD a default)).1)

/-- `TechnicalAnalyzer.__init__` against the heap: read the caller's frame
at `src`, reject empty input, otherwise allocate a new object holding the
copied-and-sorted frame (`self.df = df.copy()` followed by the
(ticker, date) sort) and return the new heap with the analyzer's `self.df`
address. -/
def analyzerInit (h : List DF) (src : Nat) : Option (List DF × Nat) :=
  match h[src]? with
  | none => none
  | some d => if d.rows = [] then none else some (h ++ [sortDF d], h.length)

/-- C10: construction copies the caller's input, so the caller's original
data — indeed every pre-existing heap object — is left unchanged by
construction and by every subsequent pipeline or evaluator call on the
constructed analyzer. -/
theorem construction_copies_callers_data (h : List DF) (src : Nat)
    (h1 : List DF) (a : Nat) (hinit : analyzerInit h src = some (h1, a))
    (ops : List AnalyzerOp) (j : Nat) (hj : j < h.length) :
    (ops.foldl (fun hh o => runAnalyzerOp hh a o) h1)[j]? = h[j]? := by
  unfold analyzerInit at hinit
  rcases hsrc : h[src]? with _ | d
  · rw [hsrc] at hinit
    exact absurd hinit (by simp)
  · rw [hsrc] at hinit
    by_cases hd : d.rows = []
    · simp only [if_pos hd] at hinit
      exact absurd hinit (by simp)
    · simp only [if_neg hd] at hinit
      injection hinit with hpair
      have hh1 : h ++ [sortDF d] = h1 := congrArg Prod.fst hpair
      have ha : h.length = a := congrArg Prod.snd hpair
      subst hh1
      subst ha
      have base : (h ++ [sortDF d])[j]? = h[j]? := by
        rw [List.getElem?_append, if_pos hj]
      have hne : h.length ≠ j := by omega
      suffices H : ∀ (ops : List AnalyzerOp) (hh : List DF), hh[j]? = h[j]? →
          (ops.foldl (fun hh o => runAnalyzerOp hh h.length o) hh)[j]? = h[j]? by
        exact H ops (h ++ [sortDF d]) base
      intro ops
      induction ops with
      | nil =>
        intro hh hinv
        exact hinv
      | cons o ops ih =>
        intro hh hinv
        show (ops.foldl _ (runAnalyzerOp hh h.length o))[j]? = h[j]?
        apply ih
        cases o with
        | indicator o2 =>
          show (hh.set h.length _)[j]? = h[j]?
          rw [List.getElem?_set_ne hne]
          exact hinv
        | strategy t =>
          show (hh.set h.length _)[j]? = h[j]?
          rw [List.getElem?_set_ne hne]
          exact hinv

/-- Witness for C10: a one-object heap, a successful construction, and one
subsequent pipeline call; the caller's frame at address `0` is unchanged. -/
theorem construction_copies_callers_data_witness :
    analyzerInit [⟨[⟨"A", 1, 0, 0, 0, 10, 0⟩], []⟩] 0 =
        some ([⟨[⟨"A", 1, 0, 0, 0, 10, 0⟩], []⟩, ⟨[⟨"A", 1, 0, 0, 0, 10, 0⟩], []⟩], 1) ∧
      0 < 1 ∧
      ([AnalyzerOp.indicator (IndicatorOp.sma 2)].foldl
          (fun hh o => runAnalyzerOp hh 1 o)
          [⟨[⟨"A", 1, 0, 0, 0, 10, 0⟩], []⟩, ⟨[⟨"A", 1, 0, 0, 0, 10, 0⟩], []⟩])[0]? =
        ([⟨[⟨"A", 1, 0, 0, 0, 10, 0⟩], []⟩] : List DF)[0]? :=
  ⟨rfl, by decide,
   construction_copies_callers_data [⟨[⟨"A", 1, 0, 0, 0, 10, 0⟩], []⟩] 0
     [⟨[⟨"A", 1, 0, 0, 0, 10, 0⟩], []⟩, ⟨[⟨"A", 1, 0, 0, 0, 10, 0⟩], []⟩] 1 rfl
     [AnalyzerOp.indicator (IndicatorOp.sma 2)] 0 (by decide)⟩
